import Mathlib

/-!
Verification of the growable sequence container `my::vector` (src/Vector.hpp).

The container manages a pointer triple `m_first ≤ m_last ≤ m_end`: slots in
`[m_first, m_last)` are live (hold constructed elements), slots in `[m_last, m_end)`
are raw (allocated, uninitialized).  We embed the container at two levels:

* `Vec α` — bookkeeping/value level: the live region as a list of values together with
  `capacity = m_end - m_first` and the allocator's `max_size()`.  The allocator is modelled
  as satisfying a request of `n` slots exactly when `n ≤ max_size()` (as `std::allocator`
  does, failing beyond its `max_size`); where an operation can additionally fail
  nondeterministically an explicit oracle parameter is supplied.

* `Buf α` — slot level: every slot of the block individually, `some a` for a live slot
  holding `a`, `none` for a raw slot, plus the `m_last` cursor as an index.  Operations at
  this level also emit the trace of `allocator_traits::construct` / `destroy` calls they
  issue, so that lifetime defects (constructing into a live slot, destroying a raw slot,
  losing the `m_last` update) are observable.
-/

deriving instance DecidableEq for Except

namespace MySTL

/-- Error taxonomy of the container (§7 of the design): `out_of_range` from `at`/`erase`
bounds checks, `length_error` from `max_size` checks, allocation failure, and an element
constructor failing mid-batch. -/
inductive VErr where
  | outOfRange
  | lengthError
  | outOfMemory
  | elemFail
deriving DecidableEq

/-- Bookkeeping state of `my::vector`: `elems` lists the live region `[m_first, m_last)`,
`cap = m_end - m_first` (`capacity()`), and `maxSize = allocator_traits::max_size(alloc)`. -/
structure Vec (α : Type) where
  elems : List α
  cap : Nat
  maxSize : Nat
deriving DecidableEq

namespace Vec

variable {α : Type}

/-- `size() = m_last - m_first` (Vector.hpp:416). -/
def size (v : Vec α) : Nat := v.elems.length

/-- The container invariant `0 ≤ size() ≤ capacity() ≤ max_size()` (§8 of the design). -/
def Inv (v : Vec α) : Prop := v.size ≤ v.cap ∧ v.cap ≤ v.maxSize

instance (v : Vec α) : Decidable v.Inv := by
  unfold Inv; exact inferInstance

/-- `reserve(n)` (Vector.hpp:499-544), success/value level.  In source order: throw
`length_error` when `n > max_size()`; return when `n <= capacity()`; retarget
`n = max(n, capacity() * 2)`; the source's `if (n == 0)` branch (Vector.hpp:506-510) is kept
although it is unreachable (`n > capacity() ≥ 0` here); allocate the new block (modelled as
succeeding exactly when the target is within `max_size`), relocate the old elements in
order, release the old block, rebind the cursors.  The relocation preserves the element
sequence, so only `cap` changes. -/
def reserve (v : Vec α) (n : Nat) : Except VErr (Vec α) :=
  if v.maxSize < n then .error .lengthError
  else if n ≤ v.cap then .ok v
  else if Nat.max n (v.cap * 2) = 0 then .ok ⟨[], 0, v.maxSize⟩
  else if Nat.max n (v.cap * 2) ≤ v.maxSize then .ok ⟨v.elems, Nat.max n (v.cap * 2), v.maxSize⟩
  else .error .outOfMemory

/-- `push_back` (Vector.hpp:634-665) success path: grow when `size() + 1 >= capacity()`
via `reserve(size() + 1)`, construct the new element at `m_last`, then `m_last++`. -/
def pushBack (v : Vec α) (x : α) : Except VErr (Vec α) :=
  match (if v.cap ≤ v.size + 1 then v.reserve (v.size + 1) else .ok v) with
  | .error e => .error e
  | .ok w => .ok ⟨w.elems ++ [x], w.cap, w.maxSize⟩

/-- `insert(position, n, x)` fill overload (Vector.hpp:797-843), value level: return the
position unchanged when `n == 0`; grow when `size() + n >= capacity()`; the backward shift
loop moves `[pos, old_size)` up by `n` slots and the fill loop writes `x` into
`[pos, pos + n)`, which for `pos ≤ old_size` leaves the sequence
`take pos ++ replicate n x ++ drop pos`; finally `m_last += n`. -/
def insertFill (v : Vec α) (pos n : Nat) (x : α) : Except VErr (Vec α) :=
  if n = 0 then .ok v
  else
    match (if v.cap ≤ v.size + n then v.reserve (v.size + n) else .ok v) with
    | .error e => .error e
    | .ok w => .ok ⟨w.elems.take pos ++ List.replicate n x ++ w.elems.drop pos, w.cap, w.maxSize⟩

/-- `erase(position)` (Vector.hpp:898-913), value level: throw `out_of_range` unless
`m_first ≤ position < m_last` (for an index `j`, `j < size()`); shift `[j+1, size)` down one
slot, destroy the last slot, `m_last--`.  The removed element disappears from the
sequence. -/
def eraseAt (v : Vec α) (j : Nat) : Except VErr (Vec α) :=
  if v.size ≤ j then .error .outOfRange
  else .ok ⟨v.elems.take j ++ v.elems.drop (j + 1), v.cap, v.maxSize⟩

/-- `erase(first, last)` (Vector.hpp:916-935), value level: the guard
`first < m_first || last > m_last || first >= last` throws `out_of_range` (for indices
`j = first - m_first`, `k = last - m_first`: when `k > size()` or `j ≥ k`); otherwise shift
`[k, size)` down by `k - j`, destroy the trailing `k - j` slots, `m_last -= (k - j)`. -/
def eraseRange (v : Vec α) (j k : Nat) : Except VErr (Vec α) :=
  if v.size < k ∨ k ≤ j then .error .outOfRange
  else .ok ⟨v.elems.take j ++ v.elems.drop k, v.cap, v.maxSize⟩

/-- `clear()` (Vector.hpp:949-960): destroy all live elements from the top down, reset
`m_last = m_first`; capacity is untouched. -/
def clear (v : Vec α) : Vec α := ⟨[], v.cap, v.maxSize⟩

/-- Two-argument `resize(n, c)` (Vector.hpp:460-496), bookkeeping level: throw
`length_error` when `n > max_size()`; return when `n == size()`; when `n < size()` the
source sets `m_last = m_first + n`, so the live region becomes the first `n` slots (its
shrink loop `for (i = sz; i < n; i++)` destroys nothing — see `resize2ShrinkDestroyed`);
when `n > size()` it reserves and constructs `c` into `[size, n)`. -/
def resize2 (v : Vec α) (n : Nat) (c : α) : Except VErr (Vec α) :=
  if v.maxSize < n then .error .lengthError
  else if n = v.size then .ok v
  else if n < v.size then .ok ⟨v.elems.take n, v.cap, v.maxSize⟩
  else
    match v.reserve n with
    | .error e => .error e
    | .ok w => .ok ⟨w.elems ++ List.replicate (n - w.size) c, w.cap, w.maxSize⟩

/-- `assign(n, u)` (Vector.hpp:366-386), bookkeeping level: `clear()`, `reserve(n)`, then
construct `u` into slots `[0, n)`.  The source never advances `m_last` afterwards (every
constructor ends with `m_last = m_end`, but `assign` has no such line), so the live region
stays empty whatever was constructed; see `Buf.assignB` for the slot-level picture. -/
def assign (v : Vec α) (n : Nat) (u : α) : Except VErr (Vec α) :=
  match v.clear.reserve n with
  | .error e => .error e
  | .ok w => .ok w

/-- `shrink_to_fit()` (Vector.hpp:547-588), bookkeeping level: when empty, release
everything and null the cursors; otherwise reallocate to exactly `size()` slots and relocate
(allocation of `size()` slots succeeds in the model when `size() ≤ max_size`). -/
def shrinkToFit (v : Vec α) : Except VErr (Vec α) :=
  if v.size = 0 then .ok ⟨[], 0, v.maxSize⟩
  else if v.size ≤ v.maxSize then .ok ⟨v.elems, v.size, v.maxSize⟩
  else .error .outOfMemory

/-- One public mutating operation at the bookkeeping level.  `stay` covers every failed
call (in this model all failure exits leave the bookkeeping state unchanged; a construction
failure after an operation's inner `reserve` committed is covered by `reserveOk` followed by
`stay`, since such failures keep `m_last` and the grown block) and the no-ops.  `swapOther`
models `swap(other)` (Vector.hpp:938-946), whose post-state is the other container's state:
it carries that container's invariant as a hypothesis. -/
inductive Step : Vec α → Vec α → Prop where
  | stay (v : Vec α) : Step v v
  | reserveOk {v w : Vec α} (n : Nat) : v.reserve n = .ok w → Step v w
  | pushBackOk {v w : Vec α} (x : α) : v.pushBack x = .ok w → Step v w
  | insertFillOk {v w : Vec α} (pos n : Nat) (x : α) : v.insertFill pos n x = .ok w → Step v w
  | eraseAtOk {v w : Vec α} (j : Nat) : v.eraseAt j = .ok w → Step v w
  | eraseRangeOk {v w : Vec α} (j k : Nat) : v.eraseRange j k = .ok w → Step v w
  | resizeOk {v w : Vec α} (n : Nat) (c : α) : v.resize2 n c = .ok w → Step v w
  | assignOk {v w : Vec α} (n : Nat) (u : α) : v.assign n u = .ok w → Step v w
  | clearStep (v : Vec α) : Step v v.clear
  | shrinkOk {v w : Vec α} : v.shrinkToFit = .ok w → Step v w
  | swapOther (v : Vec α) {u : Vec α} : u.Inv → Step v u

/-- States reachable from a constructed vector by public operations.  `start` is the
default constructor (null cursors, Vector.hpp:59); `sizedFill` is the sized-fill
constructor (Vector.hpp:91-113), which allocates exactly `n` slots — possible only when the
allocator can satisfy `n` — and constructs `n` copies; the iterator-range, copy, move and
initializer-list constructors produce states of the same shape. -/
inductive Reachable : Vec α → Prop where
  | start (m : Nat) : Reachable ⟨[], 0, m⟩
  | sizedFill (n m : Nat) (x : α) : n ≤ m → Reachable ⟨List.replicate n x, n, m⟩
  | step (v w : Vec α) : Reachable v → Step v w → Reachable w

/-- Events issued by `reserve` against the allocator, distinguishing the new block being
populated from the old block being torn down: `conNew i` / `desNew i` construct/destroy slot
`i` of the new block, `desOld i` destroys slot `i` of the old block, and the two
deallocation events release the respective blocks. -/
inductive REv where
  | conNew (i : Nat)
  | desNew (i : Nat)
  | deallocNew
  | desOld (i : Nat)
  | deallocOld
deriving DecidableEq

/-- Outcome of the trace-level `reserve`: the event trace, the post-call bookkeeping state
(also on failure — C++ exceptions leave the object in whatever state the function left it),
and the error signalled, if any. -/
structure RRes (α : Type) where
  trace : List REv
  state : Vec α
  err : Option VErr
deriving DecidableEq

/-- The trace of a fully successful `reserve` relocation (Vector.hpp:517-540): construct
into the new block in forward index order, destroy the old elements in reverse order, then
deallocate the old block — the source guards the deallocation with
`if (old_end - old_first != 0)`, i.e. skips it when the old capacity was zero. -/
def relocTrace (v : Vec α) : List REv :=
  ((List.range v.size).map REv.conNew) ++ (((List.range v.size).reverse).map REv.desOld) ++
    (if v.cap = 0 then [] else [REv.deallocOld])

/-- `reserve(n)` (Vector.hpp:499-544) with its failure points explicit and the full
construct/destroy/deallocate trace.  `allocOk` says whether the allocator satisfies the
request (beyond `max_size` it never does); `failIdx = some k` with `k < size()` makes the
`k`-th relocation construct fail.  On the `length_error` check and on allocation failure
nothing has been touched yet; on a mid-relocation failure the catch block
(Vector.hpp:524-532) destroys the already-constructed new-block slots `[0, k)` in reverse
order, deallocates the new block and rethrows, with the old cursors never modified; on
success the old elements are destroyed in reverse order, the old block deallocated, and the
cursors rebound to the new block. -/
def reserveTr (v : Vec α) (n : Nat) (allocOk : Bool) (failIdx : Option Nat) : RRes α :=
  if v.maxSize < n then ⟨[], v, some .lengthError⟩
  else if n ≤ v.cap then ⟨[], v, none⟩
  else if Nat.max n (v.cap * 2) = 0 then ⟨[], ⟨[], 0, v.maxSize⟩, none⟩
  else if allocOk = true ∧ Nat.max n (v.cap * 2) ≤ v.maxSize then
    match failIdx with
    | some k =>
      if k < v.size then
        ⟨((List.range k).map REv.conNew) ++ (((List.range k).reverse).map REv.desNew) ++
           [REv.deallocNew],
         v, some .elemFail⟩
      else ⟨v.relocTrace, ⟨v.elems, Nat.max n (v.cap * 2), v.maxSize⟩, none⟩
    | none => ⟨v.relocTrace, ⟨v.elems, Nat.max n (v.cap * 2), v.maxSize⟩, none⟩
  else ⟨[], v, some .outOfMemory⟩

end Vec

/-- A single `allocator_traits` lifecycle call on the element block, by slot index:
`con i` is `construct(alloc, m_first + i, ...)`, `des i` is `destroy(alloc, m_first + i)`. -/
inductive Ev where
  | con (i : Nat)
  | des (i : Nat)
deriving DecidableEq

/-- Replay a trace of construct/destroy events over a slot-liveness mask (`true` = live).
Returns `true` exactly when some event is illegal in the strict ownership model:
constructing into a slot that is already live (double construction), destroying a slot that
is raw (was never constructed, or already destroyed), or touching a slot outside the
block. -/
def replayBad (mask : List Bool) : List Ev → Bool
  | [] => false
  | Ev.con i :: rest =>
      if h : i < mask.length then
        if mask.get ⟨i, h⟩ then true else replayBad (mask.set i true) rest
      else true
  | Ev.des i :: rest =>
      if h : i < mask.length then
        if mask.get ⟨i, h⟩ then replayBad (mask.set i false) rest else true
      else true

/-- Slot-level state of `my::vector`: one entry per allocated slot (`some a` live holding
`a`, `none` raw), the `m_last` cursor as an index (`last = m_last - m_first`), and the
allocator's `max_size`.  The block invariant is that slots `[0, last)` are the live ones. -/
structure Buf (α : Type) where
  slots : List (Option α)
  last : Nat
  maxSize : Nat
deriving DecidableEq

namespace Buf

variable {α : Type}

/-- `capacity() = m_end - m_first`. -/
def cap (b : Buf α) : Nat := b.slots.length

/-- `size() = m_last - m_first`. -/
def size (b : Buf α) : Nat := b.last

/-- The liveness mask of the block, for replaying event traces. -/
def mask (b : Buf α) : List Bool := b.slots.map Option.isSome

/-- Outcome of a slot-level operation: its construct/destroy trace, the post-call state
(also on failure), and the error signalled, if any. -/
structure Res (α : Type) where
  evs : List Ev
  buf : Buf α
  err : Option VErr
deriving DecidableEq

/-- `clear()` (Vector.hpp:949-960): destroy slots `[0, m_last)` from the top down and reset
`m_last = m_first`; the block itself is kept. -/
def clearB (b : Buf α) : Res α :=
  ⟨((List.range b.last).reverse).map Ev.des,
   ⟨List.replicate b.last none ++ b.slots.drop b.last, 0, b.maxSize⟩,
   none⟩

/-- `reserve(n)` (Vector.hpp:499-544) at the slot level, success path (its own failure
traces are analysed at the `Vec` level by `Vec.reserveTr`): when growth happens the live
slots `[0, m_last)` are relocated to the front of the fresh block and the rest of the new
block is raw. -/
def reserveB (b : Buf α) (n : Nat) : Except VErr (Buf α) :=
  if b.maxSize < n then .error .lengthError
  else if n ≤ b.cap then .ok b
  else if Nat.max n (b.cap * 2) = 0 then .ok ⟨[], 0, b.maxSize⟩
  else if Nat.max n (b.cap * 2) ≤ b.maxSize then
    .ok ⟨b.slots.take b.last ++ List.replicate (Nat.max n (b.cap * 2) - b.last) none,
         b.last, b.maxSize⟩
  else .error .outOfMemory

/-- `assign(n, u)` (Vector.hpp:366-386): `clear()`, `reserve(n)`, then a loop constructing
`u` into slots `[0, n)`.  Faithful to the source, the function ends there: `m_last` is never
advanced (compare the constructors, e.g. Vector.hpp:91-113, which end with
`m_last = m_end`), so the `n` constructed objects sit beyond the recorded live region. -/
def assignB (b : Buf α) (n : Nat) (u : α) : Res α :=
  match (b.clearB).buf.reserveB n with
  | .error e => ⟨(b.clearB).evs, (b.clearB).buf, some e⟩
  | .ok w =>
      ⟨(b.clearB).evs ++ (List.range n).map Ev.con,
       ⟨(List.range w.cap).map (fun i => if i < n then some u else w.slots.getD i none),
        w.last, w.maxSize⟩,
       none⟩

/-- `erase(position)` (Vector.hpp:898-913): after the bounds check, the shift loop is
`for (i = j; i < old_size - 1; ++i) construct(alloc, m_first + i, move(m_first[i + 1]))` —
an `allocator_traits::construct` targeting slot `i`, which is live — followed by
`destroy(alloc, m_last - 1)` and `--m_last`. -/
def eraseAtB (b : Buf α) (j : Nat) : Res α :=
  if b.last ≤ j then ⟨[], b, some .outOfRange⟩
  else
    ⟨((List.range' j (b.last - 1 - j)).map Ev.con) ++ [Ev.des (b.last - 1)],
     ⟨(List.range b.cap).map (fun i =>
        if j ≤ i ∧ i + 1 < b.last then b.slots.getD (i + 1) none
        else if i + 1 = b.last then none
        else b.slots.getD i none),
      b.last - 1, b.maxSize⟩,
     none⟩

/-- `erase(first, last)` (Vector.hpp:916-935): the guard
`first < m_first || last > m_last || first >= last` throws `out_of_range`; then for
`i ∈ [j, old_size - (k - j))` the source calls
`construct(alloc, m_first + i, move(m_first[i + (k - j)]))` — again a construct into a live
slot — and destroys slots `[old_size - (k - j), old_size)`; finally `m_last -= (k - j)`. -/
def eraseRangeB (b : Buf α) (j k : Nat) : Res α :=
  if b.last < k ∨ j ≥ k then ⟨[], b, some .outOfRange⟩
  else
    ⟨((List.range' j (b.last - (k - j) - j)).map Ev.con) ++
       ((List.range' (b.last - (k - j)) (k - j)).map Ev.des),
     ⟨(List.range b.cap).map (fun i =>
        if j ≤ i ∧ i + (k - j) < b.last then b.slots.getD (i + (k - j)) none
        else if b.last - (k - j) ≤ i ∧ i < b.last then none
        else b.slots.getD i none),
      b.last - (k - j), b.maxSize⟩,
     none⟩

/-- `push_back(T&&)` / `emplace_back` (Vector.hpp:615-665) with the element construction
failure explicit (`cFail`): grow when `size() + 1 >= capacity()`; try to construct at
`m_last`; on failure the `catch` block calls `destroy(alloc, m_last)` — targeting the very
slot whose construction just failed, which was never live — and rethrows; on success
`m_last++`.  (The `push_back(const T&)` overload's catch block even writes the three-argument
`destroy(alloc, m_last, x)`, which is not a valid `allocator_traits::destroy` call at all.) -/
def pushBackF (b : Buf α) (x : α) (cFail : Bool) : Res α :=
  match (if b.cap ≤ b.last + 1 then b.reserveB (b.last + 1) else .ok b) with
  | .error e => ⟨[], b, some e⟩
  | .ok w =>
      if cFail then ⟨[Ev.des w.last], w, some .elemFail⟩
      else ⟨[Ev.con w.last], ⟨w.slots.set w.last (some x), w.last + 1, w.maxSize⟩, none⟩

end Buf

/-- Word size of the C++ `size_type` (`std::size_t`, 64-bit). -/
def W : Nat := 2 ^ 64

/-- Indices destroyed by the shrink branch of the one-argument `resize(n)`
(Vector.hpp:428-435): `for (size_type i = sz; i != n; i++) destroy(alloc, m_first + i)`.
For `n < sz` the index runs upward from `sz` and only reaches `n` after wrapping around the
unsigned word, so the loop performs `(n - sz) mod 2^64` iterations, destroying slot
`(sz + t) mod 2^64` at step `t` — starting at `sz`, the first raw slot, instead of inside
the live tail `[n, sz)`. -/
def resize1ShrinkDestroyed (sz n : Nat) : List Nat :=
  (List.range ((n + (W - sz)) % W)).map (fun t => (sz + t) % W)

/-- Indices destroyed by the shrink branch of the two-argument `resize(n, c)`
(Vector.hpp:467-474): `for (size_type i = sz; i < n; i++) destroy(alloc, m_first + i)`.
For `n < sz` the guard `i < n` fails at once, so the loop destroys the indices
`[sz, n)` — the empty list — and the source then sets `m_last = m_first + n` anyway. -/
def resize2ShrinkDestroyed (sz n : Nat) : List Nat := List.range' sz (n - sz)

namespace Vec

variable {α : Type}

/-- Case analysis of a successful `reserve`: the element sequence and `max_size` are
untouched, the resulting capacity accommodates both the request and the old capacity, and
either nothing changed at all or the new capacity is `max(n, 2 * cap)` and within
`max_size`.  (The source's `n == 0` branch is unreachable: it requires
`max(n, capacity * 2) = 0` while `n > capacity`.) -/
theorem reserve_ok_cases {v w : Vec α} {n : Nat} (h : v.reserve n = .ok w) :
    w.elems = v.elems ∧ w.maxSize = v.maxSize ∧ n ≤ w.cap ∧ v.cap ≤ w.cap ∧
      (w = v ∨ (w.cap = Nat.max n (v.cap * 2) ∧ w.cap ≤ v.maxSize)) := by
  have hl : n ≤ Nat.max n (v.cap * 2) := Nat.le_max_left n (v.cap * 2)
  have hr : v.cap * 2 ≤ Nat.max n (v.cap * 2) := Nat.le_max_right n (v.cap * 2)
  unfold reserve at h
  split_ifs at h with h1 h2 h3 h4
  · injection h with h
    subst h
    exact ⟨rfl, rfl, h2, Nat.le_refl _, Or.inl rfl⟩
  · exact absurd (h3 ▸ hl) (by omega)
  · injection h with h
    subst h
    exact ⟨rfl, rfl, hl, Nat.le_trans (by omega) hr, Or.inr ⟨rfl, h4⟩⟩

/-- A successful `reserve` preserves the invariant. -/
theorem reserve_ok_inv {v w : Vec α} {n : Nat} (hv : v.Inv) (h : v.reserve n = .ok w) :
    w.Inv := by
  obtain ⟨he, hm, hn, hc, hor⟩ := reserve_ok_cases h
  rcases hor with h' | h'
  · exact h' ▸ hv
  · refine ⟨?_, ?_⟩
    · show w.elems.length ≤ w.cap
      rw [he]
      exact Nat.le_trans hv.1 hc
    · rw [hm]
      exact h'.2

/-- C6: for every vector of size `S` and every value `v`, after a successful
`push_back(v)` the vector has size `S + 1`, its last element equals `v`, and the first `S`
elements are unchanged and in their prior order. -/
theorem pushBack_post (v w : Vec α) (x : α) (h : v.pushBack x = .ok w) :
    w.size = v.size + 1 ∧ w.elems = v.elems ++ [x] ∧
      w.elems.take v.size = v.elems ∧ w.elems.getLast? = some x := by
  unfold pushBack at h
  split at h
  case h_1 e heq => exact absurd h (by simp)
  case h_2 w0 heq =>
    injection h with h
    subst h
    have helems : w0.elems = v.elems := by
      split at heq
      · exact (reserve_ok_cases heq).1
      · injection heq with heq
        rw [← heq]
    refine ⟨?_, ?_, ?_, ?_⟩
    · show (w0.elems ++ [x]).length = v.elems.length + 1
      simp [helems]
    · simp [helems]
    · show (w0.elems ++ [x]).take v.elems.length = v.elems
      rw [helems]
      rw [show v.elems.length = v.elems.length + 0 from rfl]
      simp
    · simp [helems]

/-- Witness for `pushBack_post` at `push_back(3)` on `{1, 2}` with spare capacity. -/
theorem pushBack_post_w :
    (Vec.mk ([1, 2] : List Int) 4 100).size + 1 = 3 ∧
      ((Vec.mk ([1, 2] : List Int) 4 100).pushBack 3 = .ok ⟨[1, 2, 3], 4, 100⟩) ∧
      (Vec.mk ([1, 2, 3] : List Int) 4 100).elems.getLast? = some 3 :=
  ⟨by decide, by decide,
   (pushBack_post ⟨[1, 2], 4, 100⟩ ⟨[1, 2, 3], 4, 100⟩ 3 (by decide)).2.2.2⟩

/-- C7: `reserve(n)` with `n ≤ capacity()` changes nothing; `reserve(n)` with
`n > capacity()` (and a satisfiable target) succeeds with capacity exactly
`max(n, 2 * capacity)` — hence at least `n` — with the element sequence and size intact. -/
theorem reserve_capacity_policy (v : Vec α) (n : Nat) (h : v.Inv) :
    (n ≤ v.cap → v.reserve n = .ok v) ∧
      (v.cap < n → Nat.max n (v.cap * 2) ≤ v.maxSize →
        v.reserve n = .ok ⟨v.elems, Nat.max n (v.cap * 2), v.maxSize⟩) := by
  have hl : n ≤ Nat.max n (v.cap * 2) := Nat.le_max_left n (v.cap * 2)
  obtain ⟨hi1, hi2⟩ := h
  have hi1' : v.elems.length ≤ v.cap := hi1
  constructor
  · intro hn
    unfold reserve
    rw [if_neg (by omega : ¬ v.maxSize < n), if_pos hn]
  · intro hn ht
    unfold reserve
    rw [if_neg (by omega : ¬ v.maxSize < n), if_neg (by omega : ¬ n ≤ v.cap),
      if_neg (by omega : ¬ Nat.max n (v.cap * 2) = 0), if_pos ht]

/-- Witness for `reserve_capacity_policy`: on a vector with one element, capacity 2 and
`max_size` 100, `reserve(5)` lands on capacity `max(5, 2 * 2) = 5`. -/
theorem reserve_capacity_policy_w :
    (Vec.mk ([1] : List Int) 2 100).reserve 5 = .ok ⟨[1], Nat.max 5 (2 * 2), 100⟩ :=
  (reserve_capacity_policy ⟨[1], 2, 100⟩ 5 (by decide)).2 (by decide) (by decide)

/-- The growth step shared by `push_back` and `insert`
(`if (size() + m >= capacity()) reserve(size() + m)`): when it lands in `.ok`, the elements
are untouched, the capacity now accommodates `size() + m`, and the capacity is within
`max_size`. -/
theorem growIf_ok {v w0 : Vec α} {m : Nat} (hv : v.Inv)
    (h : (if v.cap ≤ v.size + m then v.reserve (v.size + m) else .ok v) = .ok w0) :
    w0.elems = v.elems ∧ v.size + m ≤ w0.cap ∧ w0.cap ≤ w0.maxSize := by
  split at h
  case isTrue hc =>
    obtain ⟨he, hm, hn, hcap, hor⟩ := reserve_ok_cases h
    exact ⟨he, hn, (reserve_ok_inv hv h).2⟩
  case isFalse hc =>
    injection h with h
    subst h
    exact ⟨rfl, by omega, hv.2⟩

/-- C9: inserting `n` copies of `x` at a valid position `pos` grows the size by `n`,
keeps the first `pos` elements, places the copies at `[pos, pos + n)` and shifts the former
tail up by `n`, in order. -/
theorem insertFill_post (v w : Vec α) (pos n : Nat) (x : α) (hpos : pos ≤ v.size)
    (h : v.insertFill pos n x = .ok w) :
    w.size = v.size + n ∧
      w.elems = v.elems.take pos ++ List.replicate n x ++ v.elems.drop pos := by
  unfold insertFill at h
  split at h
  case isTrue hn =>
    injection h with h
    subst h
    subst hn
    simp
  case isFalse hn =>
    split at h
    case h_1 e heq => exact absurd h (by simp)
    case h_2 w0 heq =>
      injection h with h
      subst h
      have helems : w0.elems = v.elems := by
        split at heq
        · exact (reserve_ok_cases heq).1
        · injection heq with heq
          rw [← heq]
      have hpos' : pos ≤ v.elems.length := hpos
      constructor
      · show (w0.elems.take pos ++ List.replicate n x ++ w0.elems.drop pos).length
            = v.elems.length + n
        simp [helems]
        omega
      · simp [helems]

/-- Witness for `insertFill_post`: `insert(pos = 1, 2 copies of 9)` on `{1, 2, 3}` yields
`{1, 9, 9, 2, 3}` of size 5 (the capacity grows to `max(5, 2 * 3) = 6`). -/
theorem insertFill_post_w :
    ((Vec.mk ([1, 2, 3] : List Int) 3 100).insertFill 1 2 9 = .ok ⟨[1, 9, 9, 2, 3], 6, 100⟩) ∧
      (Vec.mk ([1, 9, 9, 2, 3] : List Int) 6 100).elems =
        ([1, 2, 3] : List Int).take 1 ++ List.replicate 2 9 ++ ([1, 2, 3] : List Int).drop 1 :=
  ⟨by decide,
   (insertFill_post ⟨[1, 2, 3], 3, 100⟩ ⟨[1, 9, 9, 2, 3], 6, 100⟩ 1 2 9
      (by decide) (by decide)).2⟩

/-- Every single public operation preserves the container invariant
`size() ≤ capacity() ≤ max_size()`. -/
theorem step_preserves_inv {v w : Vec α} (hv : v.Inv) (h : Step v w) : w.Inv := by
  have hv1 : v.elems.length ≤ v.cap := hv.1
  have hv2 : v.cap ≤ v.maxSize := hv.2
  cases h with
  | stay => exact hv
  | reserveOk n hr => exact reserve_ok_inv hv hr
  | pushBackOk x hp =>
      unfold pushBack at hp
      split at hp
      case h_1 e heq => exact absurd hp (by simp)
      case h_2 w0 heq =>
        injection hp with hp
        subst hp
        obtain ⟨he, hn, hcm⟩ := growIf_ok hv heq
        constructor
        · show (w0.elems ++ [x]).length ≤ w0.cap
          have : v.elems.length + 1 ≤ w0.cap := hn
          simp only [List.length_append, List.length_cons, List.length_nil, he]
          omega
        · exact hcm
  | insertFillOk pos n x hp =>
      unfold insertFill at hp
      split at hp
      case isTrue hn0 =>
        injection hp with hp
        exact hp ▸ hv
      case isFalse hn0 =>
        split at hp
        case h_1 e heq => exact absurd hp (by simp)
        case h_2 w0 heq =>
          injection hp with hp
          subst hp
          obtain ⟨he, hn, hcm⟩ := growIf_ok hv heq
          constructor
          · show (w0.elems.take pos ++ List.replicate n x ++ w0.elems.drop pos).length ≤ w0.cap
            have : v.elems.length + n ≤ w0.cap := hn
            simp only [List.length_append, List.length_take, List.length_drop,
              List.length_replicate, he]
            omega
          · exact hcm
  | eraseAtOk j hp =>
      unfold eraseAt at hp
      split at hp
      case isTrue hc => exact absurd hp (by simp)
      case isFalse hc =>
        injection hp with hp
        subst hp
        refine ⟨?_, hv2⟩
        show (v.elems.take j ++ v.elems.drop (j + 1)).length ≤ v.cap
        simp only [List.length_append, List.length_take, List.length_drop]
        omega
  | eraseRangeOk j k hp =>
      unfold eraseRange at hp
      split at hp
      case isTrue hc => exact absurd hp (by simp)
      case isFalse hc =>
        injection hp with hp
        subst hp
        refine ⟨?_, hv2⟩
        show (v.elems.take j ++ v.elems.drop k).length ≤ v.cap
        simp only [List.length_append, List.length_take, List.length_drop]
        omega
  | resizeOk n c hp =>
      unfold resize2 at hp
      split_ifs at hp with h1 h2 h3
      · injection hp with hp
        exact hp ▸ hv
      · injection hp with hp
        subst hp
        refine ⟨?_, hv2⟩
        show (v.elems.take n).length ≤ v.cap
        simp only [List.length_take]
        omega
      · split at hp
        next e heq => exact absurd hp (by simp)
        next w0 heq =>
          injection hp with hp
          subst hp
          obtain ⟨he, hm, hn, hcap, hor⟩ := reserve_ok_cases heq
          have hcm := (reserve_ok_inv hv heq).2
          constructor
          · show (w0.elems ++ List.replicate (n - w0.size) c).length ≤ w0.cap
            have hsz : w0.elems.length = v.elems.length := by rw [he]
            simp only [List.length_append, List.length_replicate]
            show w0.elems.length + (n - w0.elems.length) ≤ w0.cap
            omega
          · exact hcm
  | assignOk n u hp =>
      unfold assign at hp
      split at hp
      case h_1 e heq => exact absurd hp (by simp)
      case h_2 w0 heq =>
        injection hp with hp
        subst hp
        have hcl : (v.clear).Inv := ⟨by simp [clear, size], hv2⟩
        obtain ⟨he, hm, hn, hcap, hor⟩ := reserve_ok_cases heq
        refine ⟨?_, (reserve_ok_inv hcl heq).2⟩
        show w0.elems.length ≤ w0.cap
        rw [he]
        simp [clear]
  | clearStep =>
      exact ⟨by simp [clear, size], hv2⟩
  | shrinkOk hp =>
      unfold shrinkToFit at hp
      split_ifs at hp with h1 h2
      · injection hp with hp
        subst hp
        exact ⟨by simp [size], Nat.zero_le _⟩
      · injection hp with hp
        subst hp
        exact ⟨Nat.le_refl _, h2⟩
  | swapOther hu => exact hu

/-- C8: in every state reachable from a constructed vector by public operations,
`0 ≤ size() ≤ capacity() ≤ max_size()` holds — equivalently, with `size = m_last - m_first`
and `cap = m_end - m_first`, the cursors satisfy `m_first ≤ m_last ≤ m_end`. -/
theorem reachable_inv (v : Vec α) (h : Reachable v) :
    0 ≤ v.size ∧ v.size ≤ v.cap ∧ v.cap ≤ v.maxSize := by
  have hi : v.Inv := by
    induction h with
    | start m => exact ⟨Nat.le_refl 0, Nat.zero_le m⟩
    | sizedFill n m x hnm =>
        exact ⟨by simp [Inv, size], hnm⟩
    | step v w hr hs ih => exact step_preserves_inv ih hs
  exact ⟨Nat.zero_le _, hi.1, hi.2⟩

/-- Witness for `reachable_inv`: the state after `push_back(7)` on a default-constructed
vector with `max_size` 10 is reachable and satisfies the invariant. -/
theorem reachable_inv_w :
    0 ≤ (Vec.mk ([7] : List Int) 1 10).size ∧
      (Vec.mk ([7] : List Int) 1 10).size ≤ (Vec.mk ([7] : List Int) 1 10).cap ∧
      (Vec.mk ([7] : List Int) 1 10).cap ≤ (Vec.mk ([7] : List Int) 1 10).maxSize :=
  reachable_inv ⟨[7], 1, 10⟩
    (Reachable.step _ _ (Reachable.start 10) (Step.pushBackOk 7 (by decide)))

/-- C1: `reserve(n)` is atomic.  It fails with `length_error` when `n > max_size()` before
touching anything; on any failure — the length check, the allocation, or a relocation
construct — the bookkeeping state is exactly the input state; and on a mid-relocation
failure at index `k` the trace is precisely the `k` successful new-block constructs, the
`k` destroys of those slots in reverse order, and the deallocation of the new block — the
old block is never touched on a failure path. -/
theorem reserve_strong_guarantee (v : Vec α) (n : Nat) (ao : Bool) (fi : Option Nat) :
    (v.maxSize < n → v.reserveTr n ao fi = ⟨[], v, some VErr.lengthError⟩) ∧
    (∀ e, (v.reserveTr n ao fi).err = some e → (v.reserveTr n ao fi).state = v) ∧
    (∀ k, fi = some k → k < v.size → v.cap < n → n ≤ v.maxSize → ao = true →
      Nat.max n (v.cap * 2) ≤ v.maxSize →
      v.reserveTr n ao fi =
        ⟨((List.range k).map REv.conNew) ++ (((List.range k).reverse).map REv.desNew) ++
           [REv.deallocNew], v, some VErr.elemFail⟩) := by
  refine ⟨?_, ?_, ?_⟩
  · intro h
    unfold reserveTr
    rw [if_pos h]
  · intro e
    rcases fi with _ | k
    · unfold reserveTr
      split_ifs <;> intro h <;> first | rfl | exact h.elim
    · unfold reserveTr
      dsimp only
      split_ifs <;> intro h <;> first | rfl | exact h.elim
  · intro k hfi hk hcap hns hao hmax
    subst hfi
    have hl : n ≤ Nat.max n (v.cap * 2) := Nat.le_max_left n (v.cap * 2)
    unfold reserveTr
    dsimp only
    rw [if_neg (by omega : ¬ v.maxSize < n), if_neg (by omega : ¬ n ≤ v.cap),
      if_neg (by omega : ¬ Nat.max n (v.cap * 2) = 0), if_pos ⟨hao, hmax⟩, if_pos hk]

/-- Witness for `reserve_strong_guarantee`: `reserve(5)` on `{1, 2}` with capacity 2 and
`max_size` 100, the relocation construct failing at index 1. -/
theorem reserve_strong_guarantee_w :
    (Vec.mk ([1, 2] : List Int) 2 100).reserveTr 5 true (some 1) =
      ⟨((List.range 1).map REv.conNew) ++ (((List.range 1).reverse).map REv.desNew) ++
         [REv.deallocNew], ⟨[1, 2], 2, 100⟩, some VErr.elemFail⟩ :=
  (reserve_strong_guarantee ⟨[1, 2], 2, 100⟩ 5 true (some 1)).2.2 1 rfl (by decide)
    (by decide) (by decide) rfl (by decide)

end Vec

/-- C10: `erase(first, last)` with an empty range (`first == last`, whether at a valid
position or at `end()`) is rejected by the guard's `first >= last` disjunct: it throws
`out_of_range`, issues no construct or destroy call, and leaves the container unchanged —
rather than returning normally as a no-op. -/
theorem eraseRange_empty_range_throws {α : Type} (b : Buf α) (j : Nat) :
    b.eraseRangeB j j = ⟨[], b, some VErr.outOfRange⟩ := by
  unfold Buf.eraseRangeB
  rw [if_pos (Or.inr (Nat.le_refl j))]

/-- C2: `assign(3, 7)` on an empty vector returns normally having constructed the three
copies into the block, yet `size()` is 0, not 3 — the source never advances `m_last` after
the construction loop (every constructor ends with `m_last = m_end`; `assign` has no such
line), so the constructed elements are beyond the live region and the claimed postcondition
`size() == n` fails. -/
theorem assign_leaves_size_zero :
    (Buf.assignB (⟨[], 0, 100⟩ : Buf Int) 3 7).err = none ∧
      (Buf.assignB (⟨[], 0, 100⟩ : Buf Int) 3 7).buf.slots.getD 0 none = some 7 ∧
      (Buf.assignB (⟨[], 0, 100⟩ : Buf Int) 3 7).buf.size = 0 ∧
      ¬ (Buf.assignB (⟨[], 0, 100⟩ : Buf Int) 3 7).buf.size = 3 := by
  decide

/-- C3: shrinking `resize` destroys the wrong slots.  On a vector of size 3 shrunk to 1,
the claim mandates destroying exactly the trailing indices `[1, 3)`.  The one-argument
overload's loop (`for (i = sz; i != n; i++)`) counts upward, so the first slot it destroys
is index 3 — the first raw slot, not a trailing live one — and it keeps going around the
unsigned word; the two-argument overload's loop (`for (i = sz; i < n; i++)`) exits at once
and destroys nothing, though the mandated index set `[1, 3)` is non-empty. -/
theorem resize_shrink_destroys_wrong_slots :
    3 ∈ resize1ShrinkDestroyed 3 1 ∧ ¬ (1 ≤ 3 ∧ 3 < 3) ∧
      resize2ShrinkDestroyed 3 1 = [] ∧ List.range' 1 (3 - 1) = [1, 2] := by
  refine ⟨?_, by decide, by decide, by decide⟩
  show 3 ∈ (List.range ((1 + (W - 3)) % W)).map (fun t => (3 + t) % W)
  refine List.mem_map.mpr ⟨0, List.mem_range.mpr ?_, ?_⟩
  · norm_num [W]
  · norm_num [W]

/-- C4: the erase shift loops construct into live slots instead of move-assigning.
`erase(begin())` on `{10, 20}` issues a `construct` targeting slot 0, which is live;
`erase(begin()+1, begin()+3)` on `{1, 9, 9, 2, 3}` issues `construct`s targeting the live
slots 1 and 2.  Replaying either trace over the liveness mask flags a double
construction. -/
theorem erase_constructs_into_live_slots :
    (Buf.eraseAtB (⟨[some 10, some 20], 2, 100⟩ : Buf Int) 0).evs = [Ev.con 0, Ev.des 1] ∧
      replayBad (Buf.mask (⟨[some 10, some 20], 2, 100⟩ : Buf Int))
        (Buf.eraseAtB (⟨[some 10, some 20], 2, 100⟩ : Buf Int) 0).evs = true ∧
      replayBad (Buf.mask (⟨[some 1, some 9, some 9, some 2, some 3], 5, 100⟩ : Buf Int))
        (Buf.eraseRangeB (⟨[some 1, some 9, some 9, some 2, some 3], 5, 100⟩ : Buf Int)
          1 3).evs = true := by
  decide

/-- C5: on a construction failure `push_back` issues a destroy for the very slot whose
construction failed.  On a vector of size 2 with capacity 4 (no growth needed) and the
element construction failing, the catch block calls `destroy(alloc, m_last)` — slot 2,
which was never live — before rethrowing; replaying the trace flags the destroy of a raw
slot.  (The bookkeeping state is otherwise unchanged, but the claim's "no destroy call for
the failed slot" is violated.) -/
theorem pushBack_fail_destroys_raw_slot :
    (Buf.pushBackF (⟨[some 5, some 6, none, none], 2, 100⟩ : Buf Int) 7 true).err
        = some VErr.elemFail ∧
      (Buf.pushBackF (⟨[some 5, some 6, none, none], 2, 100⟩ : Buf Int) 7 true).evs
        = [Ev.des 2] ∧
      (Buf.pushBackF (⟨[some 5, some 6, none, none], 2, 100⟩ : Buf Int) 7 true).buf
        = ⟨[some 5, some 6, none, none], 2, 100⟩ ∧
      replayBad (Buf.mask (⟨[some 5, some 6, none, none], 2, 100⟩ : Buf Int))
        (Buf.pushBackF (⟨[some 5, some 6, none, none], 2, 100⟩ : Buf Int) 7 true).evs
        = true := by
  decide

end MySTL
